import Mathlib

/-!
Shallow embedding of the mean-reversion backtest pipeline
(`src/python/monitor_sharpe.py` and `src/python/decision_layer.py`).

Prices, positions and returns are modelled as `List ℚ` indexed by position
(the pipeline's series all share the price series' index, so integer
positions stand for timestamps).  IEEE-754 special values that the source
manipulates explicitly (`np.isnan`, `np.inf` replacement) are modelled by
the four-valued type `FQ` (finite rational, +inf, -inf, NaN); exact float
rounding is out of scope, so finite arithmetic is exact rational
arithmetic.  The square root (used by pandas for `std` and by `np.sqrt`)
is an abstract parameter `sq : ℚ → ℚ`; theorems that depend on its
behaviour assume only `sq x = 0 ↔ x = 0` on nonnegative inputs, which the
real square root satisfies.
-/

/-- Float-like values: NaN, plus/minus infinity, or a finite rational. -/
inductive FQ where
  | nan : FQ
  | posinf : FQ
  | neginf : FQ
  | fin : ℚ → FQ
deriving DecidableEq, Repr

/-- IEEE-style division; the pipeline only ever divides finite values:
`a / 0` is `+inf`, `-inf` or `NaN` according to the sign of `a`, and NaN
propagates. -/
def FQ.div : FQ → FQ → FQ
  | FQ.fin a, FQ.fin b =>
      if b = 0 then (if 0 < a then FQ.posinf else if a < 0 then FQ.neginf else FQ.nan)
      else FQ.fin (a / b)
  | FQ.nan, _ => FQ.nan
  | _, FQ.nan => FQ.nan
  | FQ.posinf, FQ.posinf => FQ.nan
  | FQ.posinf, FQ.neginf => FQ.nan
  | FQ.neginf, FQ.posinf => FQ.nan
  | FQ.neginf, FQ.neginf => FQ.nan
  | FQ.posinf, FQ.fin b => if 0 ≤ b then FQ.posinf else FQ.neginf
  | FQ.neginf, FQ.fin b => if 0 ≤ b then FQ.neginf else FQ.posinf
  | FQ.fin _, FQ.posinf => FQ.fin 0
  | FQ.fin _, FQ.neginf => FQ.fin 0

/-- Multiplication by a finite scalar on the left (IEEE: `0 * inf = NaN`). -/
def FQ.scale (c : ℚ) : FQ → FQ
  | FQ.nan => FQ.nan
  | FQ.posinf => if 0 < c then FQ.posinf else if c < 0 then FQ.neginf else FQ.nan
  | FQ.neginf => if 0 < c then FQ.neginf else if c < 0 then FQ.posinf else FQ.nan
  | FQ.fin a => FQ.fin (c * a)

/-- Test for NaN, as `np.isnan`. -/
def FQ.isNan : FQ → Bool
  | FQ.nan => true
  | _ => false

/-- Absolute value, as Python `abs` on floats. -/
def FQ.fabs : FQ → FQ
  | FQ.nan => FQ.nan
  | FQ.posinf => FQ.posinf
  | FQ.neginf => FQ.posinf
  | FQ.fin a => FQ.fin |a|

/-- Strict comparison, as float `<`: any comparison with NaN is false. -/
def FQ.lt : FQ → FQ → Bool
  | FQ.nan, _ => false
  | _, FQ.nan => false
  | FQ.neginf, FQ.neginf => false
  | FQ.neginf, _ => true
  | _, FQ.neginf => false
  | FQ.posinf, _ => false
  | FQ.fin _, FQ.posinf => true
  | FQ.fin a, FQ.fin b => decide (a < b)

/-- Replace both infinities by NaN, as `sr.replace([np.inf, -np.inf], np.nan)`. -/
def FQ.clearInf : FQ → FQ
  | FQ.posinf => FQ.nan
  | FQ.neginf => FQ.nan
  | x => x

/-- The trailing `window` observations ending at index `i` (indices
`i+1-window .. i`), the data a pandas rolling aggregate at `i` sees. -/
def trailing (l : List ℚ) (window i : ℕ) : List ℚ :=
  (l.take (i + 1)).drop (i + 1 - window)

/-- Arithmetic mean of a list of rationals (`rolling(window).mean()` body). -/
def meanQ (l : List ℚ) : ℚ := l.sum / (l.length : ℚ)

/-- Population variance (`rolling(window).std(ddof=0)` squared): mean of
squared deviations, denominator = window length. -/
def varQ (l : List ℚ) : ℚ :=
  ((l.map (fun x => (x - meanQ l) ^ 2)).sum) / (l.length : ℚ)

/-- Exact square root on perfect-square rationals: the square roots of the
numerator and denominator.  Wherever the argument is a square of a rational
(as in the concrete traces below) this equals the real square root, so the
abstract parameter `sq` can be instantiated with it faithfully. -/
def ratSqrt (x : ℚ) : ℚ := (Nat.sqrt x.num.toNat : ℚ) / (Nat.sqrt x.den : ℚ)

/-- The z value `z.iat[i]` of `zscore_position`: `(s - mu) / sig` where
`mu`/`sig` are rolling mean / population std over `window` observations.
With fewer than `window` observations pandas yields NaN; otherwise the
quotient is formed with float semantics (`0/0` is NaN, `d/0` is ±inf),
with `sig = sq (varQ ...)` for the abstract square root `sq`. -/
def zscoreFQ (sq : ℚ → ℚ) (price : List ℚ) (window i : ℕ) : FQ :=
  if i + 1 < window then FQ.nan
  else FQ.div (FQ.fin (price.getD i 0 - meanQ (trailing price window i)))
              (FQ.fin (sq (varQ (trailing price window i))))

/-- The whole z series of `zscore_position`, one entry per price index. -/
def zListFQ (sq : ℚ → ℚ) (price : List ℚ) (window : ℕ) : List FQ :=
  (List.range price.length).map (zscoreFQ sq price window)

/-- One iteration of the `for i in range(len(s))` loop body of
`zscore_position`, mapping the running `current` and `z.iat[i]` to the new
`current` (which is also written into `pos.iat[i]`). -/
def posStep (zentry zexit cur : ℚ) (zi : FQ) : ℚ :=
  if zi.isNan then 0
  else if FQ.lt zi.fabs (FQ.fin zexit) then 0
  else if cur = 0 then
    (if FQ.lt (FQ.fin zentry) zi then -1
     else if FQ.lt zi (FQ.fin (-zentry)) then 1
     else cur)
  else cur

/-- The loop of `zscore_position`: successive states written out in order. -/
def posScan (zentry zexit : ℚ) : ℚ → List FQ → List ℚ
  | _, [] => []
  | cur, zi :: rest =>
      let c := posStep zentry zexit cur zi
      c :: posScan zentry zexit c rest

/-- `zscore_position(price, window, z_entry, z_exit)` from
`src/python/monitor_sharpe.py`: the position series produced by running the
stateful loop over the z series, starting from `current = 0`. -/
def zscore_position (sq : ℚ → ℚ) (price : List ℚ) (window : ℕ)
    (zentry zexit : ℚ) : List ℚ :=
  posScan zentry zexit 0 (zListFQ sq price window)

/-- `price.pct_change().fillna(0.0)`: first entry 0, then
`price_t / price_{t-1} - 1`. -/
def pct_change_fill (p : List ℚ) : List ℚ :=
  match p with
  | [] => []
  | _ :: _ => 0 :: List.zipWith (fun prev cur => cur / prev - 1) p p.tail

/-- `position.reindex(price.index).fillna(0.0)`: the position at each price
index, 0 where the position series has no entry. -/
def reindex_fill (price position : List ℚ) : List ℚ :=
  (List.range price.length).map (fun i => position.getD i 0)

/-- `pos.shift(1).fillna(0.0)`: lag by one period, first entry 0. -/
def shift_fill (l : List ℚ) : List ℚ :=
  match l with
  | [] => []
  | _ :: _ => 0 :: l.dropLast

/-- `(pos - pos.shift(1)).abs().fillna(0.0)`: absolute one-period change,
first entry 0. -/
def turnover_fill (l : List ℚ) : List ℚ :=
  match l with
  | [] => []
  | _ :: _ => 0 :: List.zipWith (fun a b => |b - a|) l l.tail

/-- `backtest_returns(price, position, cost_bps)` from
`src/python/monitor_sharpe.py`: net return series
`pos_lag * r - (cost_bps/10000) * turnover`. -/
def backtest_returns (price position : List ℚ) (cost_bps : ℚ) : List ℚ :=
  let r := pct_change_fill price
  let pos := reindex_fill price position
  let gross := List.zipWith (fun a b => a * b) (shift_fill pos) r
  let cost := (turnover_fill pos).map (fun x => cost_bps / 10000 * x)
  List.zipWith (fun a b => a - b) gross cost

/-- The raw `np.sqrt(annualization) * (mu / sig)` value of `rolling_sharpe`
at index `i`, before infinities are replaced: NaN with fewer than `window`
observations (`min_periods=window`), otherwise a float quotient scaled by
`sq annualization`. -/
def srRaw (sq : ℚ → ℚ) (r : List ℚ) (window ann i : ℕ) : FQ :=
  if i + 1 < window then FQ.nan
  else FQ.scale (sq (ann : ℚ))
    (FQ.div (FQ.fin (meanQ (trailing r window i)))
            (FQ.fin (sq (varQ (trailing r window i)))))

/-- `rolling_sharpe(returns, window, annualization)` from
`src/python/monitor_sharpe.py`, including the final
`.replace([np.inf, -np.inf], np.nan)`. -/
def rolling_sharpe (sq : ℚ → ℚ) (r : List ℚ) (window ann : ℕ) : List FQ :=
  (List.range r.length).map (fun i => FQ.clearInf (srRaw sq r window ann i))

/-- Insert into a sorted list of rationals (ascending). -/
def insertQ (x : ℚ) : List ℚ → List ℚ
  | [] => [x]
  | y :: ys => if x ≤ y then x :: y :: ys else y :: insertQ x ys

/-- Insertion sort on rationals, ascending. -/
def sortQ : List ℚ → List ℚ
  | [] => []
  | x :: xs => insertQ x (sortQ xs)

/-- Median of a list of rationals with pandas interpolation: the middle
element for odd length, the average of the two middle elements for even
length, undefined for the empty list. -/
def medianQ (l : List ℚ) : Option ℚ :=
  let s := sortQ l
  if s.length = 0 then none
  else if s.length % 2 = 1 then some (s.getD (s.length / 2) 0)
  else some ((s.getD (s.length / 2 - 1) 0 + s.getD (s.length / 2) 0) / 2)

/-- Per-row score of `compute_decision`: `snap.median(axis=1, skipna=True)`
on one row — the median of the row's defined (non-NaN) entries, NaN (here
`none`) when every entry is undefined. -/
def rowScore (row : List (Option ℚ)) : Option ℚ :=
  medianQ (row.filterMap id)

/-- Float comparison `score < level` as pandas evaluates it inside
`(scores < level)`: false when the score is NaN. -/
def ltOptQ (s : Option ℚ) (level : ℚ) : Bool :=
  match s with
  | none => false
  | some q => decide (q < level)

/-- `boolSeries.mean()`: fraction of `true` entries; NaN (`none`) for the
empty series. -/
def boolMean (l : List Bool) : Option ℚ :=
  match l with
  | [] => none
  | _ :: _ => some (((l.map (fun b => if b then (1 : ℚ) else 0)).sum) / (l.length : ℚ))

/-- Float comparison `frac >= threshold` as Python evaluates it in the
`if bad_stop >= frac_stop` guards: false when the fraction is NaN. -/
def geOptQ (s : Option ℚ) (threshold : ℚ) : Bool :=
  match s with
  | none => false
  | some q => decide (threshold ≤ q)

/-- The three risk modes emitted by the decision layer. -/
inductive RiskMode where
  | NORMAL : RiskMode
  | REDUCE : RiskMode
  | STOP : RiskMode
deriving DecidableEq, Repr

/-- Insert into a list of (signal window, score) pairs sorted by key. -/
def insertScore (x : ℤ × Option ℚ) :
    List (ℤ × Option ℚ) → List (ℤ × Option ℚ)
  | [] => [x]
  | y :: ys => if x.1 ≤ y.1 then x :: y :: ys else y :: insertScore x ys

/-- `scores.sort_index()`: the score pairs sorted by signal window. -/
def sortScores : List (ℤ × Option ℚ) → List (ℤ × Option ℚ)
  | [] => []
  | x :: xs => insertScore x (sortScores xs)

/-- The dict returned by `compute_decision`. -/
structure Decision where
  risk_mode : RiskMode
  position_multiplier : ℚ
  trade_window : ℤ
  trade_score : Option ℚ
  bad_warn_frac : Option ℚ
  bad_stop_frac : Option ℚ
  scores : List (ℤ × Option ℚ)
deriving DecidableEq, Repr

/-- The local `scores = snap.median(axis=1, skipna=True)` of
`compute_decision`: one (signal window, per-row median score) pair per row. -/
def snapScores (snap : List (ℤ × List (Option ℚ))) : List (ℤ × Option ℚ) :=
  snap.map (fun r => (r.1, rowScore r.2))

/-- The local `bad_warn = (scores < warn_sharpe).mean()` (and its `bad_stop`
twin) of `compute_decision`: the mean of the boolean series `score < level`. -/
def badFrac (snap : List (ℤ × List (Option ℚ))) (level : ℚ) : Option ℚ :=
  boolMean ((snapScores snap).map (fun r => ltOptQ r.2 level))

/-- `compute_decision` from `src/python/decision_layer.py` (the copy in
`src/python/monitor_sharpe.py` is identical).  The snapshot matrix is a
list of rows `(signal_window, latest Sharpe values across the monitoring
windows)`, a NaN Sharpe value being `none`. -/
def compute_decision (snap : List (ℤ × List (Option ℚ))) (trade_window : ℤ)
    (warn_sharpe stop_sharpe frac_warn frac_stop : ℚ) : Decision :=
  let scores : List (ℤ × Option ℚ) := snapScores snap
  let bad_warn := badFrac snap warn_sharpe
  let bad_stop := badFrac snap stop_sharpe
  let trade_score := (scores.find? (fun r => decide (r.1 = trade_window))).bind
    (fun r => r.2)
  if geOptQ bad_stop frac_stop then
    ⟨RiskMode.STOP, 0, trade_window, trade_score, bad_warn, bad_stop, sortScores scores⟩
  else if geOptQ bad_warn frac_warn then
    ⟨RiskMode.REDUCE, 1 / 2, trade_window, trade_score, bad_warn, bad_stop, sortScores scores⟩
  else
    ⟨RiskMode.NORMAL, 1, trade_window, trade_score, bad_warn, bad_stop, sortScores scores⟩

/-- Conservativeness rank of a risk mode: NORMAL < REDUCE < STOP. -/
def rankMode : RiskMode → ℕ
  | RiskMode.NORMAL => 0
  | RiskMode.REDUCE => 1
  | RiskMode.STOP => 2

/-- The z value as the spec describes it (§4.1): undefined on insufficient
history or zero rolling population std, otherwise `(price - mean) / std`. -/
def specZ (sq : ℚ → ℚ) (price : List ℚ) (window i : ℕ) : Option ℚ :=
  if i + 1 < window ∨ varQ (trailing price window i) = 0 then none
  else some ((price.getD i 0 - meanQ (trailing price window i)) /
             sq (varQ (trailing price window i)))

/-- One step of the position state machine as the spec words it (§4.1):
undefined z resets to 0; `|z| < z_exit` resets to 0; from flat, enter short
on `z > z_entry`, long on `z < -z_entry`, otherwise stay flat; otherwise
hold the current position. -/
def specStep (zentry zexit cur : ℚ) : Option ℚ → ℚ
  | none => 0
  | some z =>
      if |z| < zexit then 0
      else if cur = 0 then
        (if zentry < z then -1 else if z < -zentry then 1 else 0)
      else cur

/-- The Position Generator output as a left-fold over timestamps carrying
the state `current_position` (spec §4.1 / §9), emitting one state per
timestamp. -/
def specPositions (sq : ℚ → ℚ) (price : List ℚ) (window : ℕ)
    (zentry zexit : ℚ) : List ℚ :=
  ((List.range price.length).foldl
    (fun (acc : List ℚ × ℚ) i =>
      let c := specStep zentry zexit acc.2 (specZ sq price window i)
      (acc.1 ++ [c], c))
    ([], 0)).1

/-- Modelled from the spec (§4.5 step 2): the degradation fraction computed
over only the rows with a defined score — rows with undefined score excluded
from numerator and denominator both.  This is the spec's stated policy, kept
separate from `compute_decision` so the two can be compared. -/
def fracBelowSpec (level : ℚ) (scores : List (Option ℚ)) : Option ℚ :=
  let defined := scores.filterMap id
  match defined with
  | [] => none
  | _ :: _ => some (((defined.countP (fun q => decide (q < level))) : ℚ) /
                    (defined.length : ℚ))

lemma cd_bad_warn_frac (snap : List (ℤ × List (Option ℚ))) (tw : ℤ)
    (w s fw fs : ℚ) :
    (compute_decision snap tw w s fw fs).bad_warn_frac = badFrac snap w := by
  simp only [compute_decision]
  split_ifs <;> rfl

lemma cd_bad_stop_frac (snap : List (ℤ × List (Option ℚ))) (tw : ℤ)
    (w s fw fs : ℚ) :
    (compute_decision snap tw w s fw fs).bad_stop_frac = badFrac snap s := by
  simp only [compute_decision]
  split_ifs <;> rfl

lemma cd_trade_score (snap : List (ℤ × List (Option ℚ))) (tw : ℤ)
    (w s fw fs : ℚ) :
    (compute_decision snap tw w s fw fs).trade_score =
      ((snapScores snap).find? (fun r => decide (r.1 = tw))).bind (fun r => r.2) := by
  simp only [compute_decision]
  split_ifs <;> rfl

lemma cd_risk_mode (snap : List (ℤ × List (Option ℚ))) (tw : ℤ)
    (w s fw fs : ℚ) :
    (compute_decision snap tw w s fw fs).risk_mode =
      (if geOptQ (badFrac snap s) fs then RiskMode.STOP
       else if geOptQ (badFrac snap w) fw then RiskMode.REDUCE
       else RiskMode.NORMAL) := by
  simp only [compute_decision]
  split_ifs <;> rfl

lemma cd_position_multiplier (snap : List (ℤ × List (Option ℚ))) (tw : ℤ)
    (w s fw fs : ℚ) :
    (compute_decision snap tw w s fw fs).position_multiplier =
      (if geOptQ (badFrac snap s) fs then 0
       else if geOptQ (badFrac snap w) fw then 1 / 2
       else 1) := by
  simp only [compute_decision]
  split_ifs <;> rfl

lemma geOptQ_mono {b : Option ℚ} {f f' : ℚ} (h : geOptQ b f = true)
    (hle : f' ≤ f) : geOptQ b f' = true := by
  cases b with
  | none => simp [geOptQ] at h
  | some q =>
      simp only [geOptQ, decide_eq_true_eq] at h ⊢
      exact le_trans hle h

/-- C5: `compute_decision` selects the risk mode in fixed priority order —
STOP (multiplier 0) when the stop fraction clears its threshold, else
REDUCE (multiplier 1/2) when the warn fraction clears its threshold, else
NORMAL (multiplier 1); in particular an input satisfying both threshold
conditions yields STOP, never REDUCE. -/
theorem c5_priority (snap : List (ℤ × List (Option ℚ))) (tw : ℤ)
    (w s fw fs : ℚ) :
    (geOptQ (compute_decision snap tw w s fw fs).bad_stop_frac fs = true →
      (compute_decision snap tw w s fw fs).risk_mode = RiskMode.STOP ∧
      (compute_decision snap tw w s fw fs).position_multiplier = 0) ∧
    (geOptQ (compute_decision snap tw w s fw fs).bad_stop_frac fs = false →
      geOptQ (compute_decision snap tw w s fw fs).bad_warn_frac fw = true →
      (compute_decision snap tw w s fw fs).risk_mode = RiskMode.REDUCE ∧
      (compute_decision snap tw w s fw fs).position_multiplier = 1 / 2) ∧
    (geOptQ (compute_decision snap tw w s fw fs).bad_stop_frac fs = false →
      geOptQ (compute_decision snap tw w s fw fs).bad_warn_frac fw = false →
      (compute_decision snap tw w s fw fs).risk_mode = RiskMode.NORMAL ∧
      (compute_decision snap tw w s fw fs).position_multiplier = 1) ∧
    (geOptQ (compute_decision snap tw w s fw fs).bad_stop_frac fs = true →
      geOptQ (compute_decision snap tw w s fw fs).bad_warn_frac fw = true →
      (compute_decision snap tw w s fw fs).risk_mode = RiskMode.STOP) := by
  rw [cd_bad_stop_frac, cd_bad_warn_frac, cd_risk_mode, cd_position_multiplier]
  refine ⟨fun hs' => ?_, fun hs' hw' => ?_, fun hs' hw' => ?_, fun hs' _ => ?_⟩
  · simp [hs']
  · simp [hs', hw']
  · simp [hs', hw']
  · simp [hs']


/-- Witness for C5 at a concrete snapshot satisfying both threshold
conditions: the result is STOP, never REDUCE. -/
theorem c5_witness :
    geOptQ (compute_decision [((10 : ℤ), [some ((-1 : ℚ))]), (20, [some (-1)])]
      10 0 (-1/2) (1/2) (3/4)).bad_stop_frac (3/4) = true ∧
    geOptQ (compute_decision [((10 : ℤ), [some ((-1 : ℚ))]), (20, [some (-1)])]
      10 0 (-1/2) (1/2) (3/4)).bad_warn_frac (1/2) = true ∧
    (compute_decision [((10 : ℤ), [some ((-1 : ℚ))]), (20, [some (-1)])]
      10 0 (-1/2) (1/2) (3/4)).risk_mode = RiskMode.STOP :=
  ⟨by norm_num [compute_decision, badFrac, snapScores, rowScore, medianQ, sortQ,
      insertQ, ltOptQ, boolMean, geOptQ],
   by norm_num [compute_decision, badFrac, snapScores, rowScore, medianQ, sortQ,
      insertQ, ltOptQ, boolMean, geOptQ],
   (c5_priority [((10 : ℤ), [some ((-1 : ℚ))]), (20, [some (-1)])]
      10 0 (-1/2) (1/2) (3/4)).2.2.2
     (by norm_num [compute_decision, badFrac, snapScores, rowScore, medianQ, sortQ,
        insertQ, ltOptQ, boolMean, geOptQ])
     (by norm_num [compute_decision, badFrac, snapScores, rowScore, medianQ, sortQ,
        insertQ, ltOptQ, boolMean, geOptQ])⟩

/-- C8: with the snapshot matrix and the warn/stop levels fixed, lowering
`frac_warn` and/or `frac_stop` can only move the selected risk mode toward
the conservative end of NORMAL → REDUCE → STOP, never back. -/
theorem c8_monotone (snap : List (ℤ × List (Option ℚ))) (tw : ℤ)
    (w s fw fs fw' fs' : ℚ) (h1 : fw' ≤ fw) (h2 : fs' ≤ fs) :
    rankMode (compute_decision snap tw w s fw fs).risk_mode ≤
      rankMode (compute_decision snap tw w s fw' fs').risk_mode := by
  rw [cd_risk_mode, cd_risk_mode]
  cases hstop : geOptQ (badFrac snap s) fs with
  | true =>
      have hstop' := geOptQ_mono hstop h2
      simp [hstop, hstop']
  | false =>
      cases hwarn : geOptQ (badFrac snap w) fw with
      | false => simp [hstop, hwarn, rankMode]
      | true =>
          have hwarn' := geOptQ_mono hwarn h1
          cases hstop' : geOptQ (badFrac snap s) fs' with
          | true => simp [hstop, hwarn, hstop', rankMode]
          | false => simp [hstop, hwarn, hstop', hwarn', rankMode]

/-- Witness for C8: the rank inequality holds when the fractions are
tightened from (1/2, 3/4) to (1/4, 1/4) on a concrete snapshot. -/
theorem c8_witness :
    ((1 : ℚ)/4 ≤ 1/2 ∧ (1 : ℚ)/4 ≤ 3/4) ∧
    rankMode (compute_decision [((10 : ℤ), [some ((-1 : ℚ))]), (20, [some 1])]
      10 0 (-1/2) (1/2) (3/4)).risk_mode ≤
      rankMode (compute_decision [((10 : ℤ), [some ((-1 : ℚ))]), (20, [some 1])]
        10 0 (-1/2) (1/4) (1/4)).risk_mode :=
  ⟨⟨by norm_num, by norm_num⟩,
   c8_monotone [((10 : ℤ), [some ((-1 : ℚ))]), (20, [some 1])]
     10 0 (-1/2) (1/2) (3/4) (1/4) (1/4) (by norm_num) (by norm_num)⟩

/-- C9: a trade window absent from the snapshot's row index gives an
undefined trade score, not an error, and the selected risk mode and
multiplier never depend on the trade window argument at all. -/
theorem c9_trade_window (snap : List (ℤ × List (Option ℚ)))
    (w s fw fs : ℚ) (tw : ℤ) (h : ∀ r ∈ snap, r.1 ≠ tw) :
    (compute_decision snap tw w s fw fs).trade_score = none ∧
    (∀ tw1 tw2 : ℤ,
      (compute_decision snap tw1 w s fw fs).risk_mode =
        (compute_decision snap tw2 w s fw fs).risk_mode ∧
      (compute_decision snap tw1 w s fw fs).position_multiplier =
        (compute_decision snap tw2 w s fw fs).position_multiplier) := by
  constructor
  · rw [cd_trade_score]
    have hfind : (snapScores snap).find? (fun r => decide (r.1 = tw)) = none := by
      rw [List.find?_eq_none]
      intro x hx
      rcases List.mem_map.1 hx with ⟨r, hr, rfl⟩
      simp [h r hr]
    rw [hfind]
    rfl
  · intro tw1 tw2
    exact ⟨by rw [cd_risk_mode, cd_risk_mode],
           by rw [cd_position_multiplier, cd_position_multiplier]⟩

/-- Witness for C9: trade window 40 is absent from a concrete two-row
snapshot, so the trade score is undefined there. -/
theorem c9_witness :
    (∀ r ∈ [((10 : ℤ), [some ((-1 : ℚ))]), (20, [some 1])], r.1 ≠ (40 : ℤ)) ∧
    (compute_decision [((10 : ℤ), [some ((-1 : ℚ))]), (20, [some 1])]
      40 0 (-1/2) (1/2) (3/4)).trade_score = none :=
  ⟨by decide,
   (c9_trade_window [((10 : ℤ), [some ((-1 : ℚ))]), (20, [some 1])]
     0 (-1/2) (1/2) (3/4) 40 (by decide)).1⟩

lemma rowScore_none {row : List (Option ℚ)} (h : ∀ x ∈ row, x = none) :
    rowScore row = none := by
  unfold rowScore
  have hnil : row.filterMap id = [] :=
    List.filterMap_eq_nil_iff.2 (fun a ha => h a ha)
  rw [hnil]
  rfl

lemma badFrac_all_undefined (snap : List (ℤ × List (Option ℚ))) (level : ℚ)
    (hall : ∀ r ∈ snap, ∀ x ∈ r.2, x = none) :
    badFrac snap level = none ∨ badFrac snap level = some 0 := by
  unfold badFrac snapScores
  cases snap with
  | nil => exact Or.inl rfl
  | cons a t =>
      right
      rw [List.map_map]
      have hmap : ((a :: t).map ((fun r => ltOptQ r.2 level) ∘
          (fun r => (r.1, rowScore r.2)))) = (a :: t).map (fun _ => false) := by
        apply List.map_congr_left
        intro r hr
        have : rowScore r.2 = none := rowScore_none (hall r hr)
        simp [Function.comp, this, ltOptQ]
      rw [hmap]
      simp only [boolMean, List.map_cons]
      have hsum : (((a :: t).map (fun _ => false)).map
          (fun b => if b then (1 : ℚ) else 0)).sum = 0 := by
        apply List.sum_eq_zero
        intro x hx
        rcases List.mem_map.1 hx with ⟨b, hb, rfl⟩
        rcases List.mem_map.1 hb with ⟨r, _, rfl⟩
        rfl
      simp only [List.map_cons] at hsum
      rw [hsum]
      simp

/-- C10: when every Sharpe entry of every row is undefined (and likewise
for an empty snapshot), no score satisfies a below-threshold comparison, so
`compute_decision` returns the least conservative decision NORMAL with
multiplier 1 (for positive warn/stop fractions, which the defaults 0.5 and
0.75 are) rather than an error or a STOP. -/
theorem c10_all_undefined (snap : List (ℤ × List (Option ℚ))) (tw : ℤ)
    (w s fw fs : ℚ) (hall : ∀ r ∈ snap, ∀ x ∈ r.2, x = none)
    (hfw : 0 < fw) (hfs : 0 < fs) :
    (compute_decision snap tw w s fw fs).risk_mode = RiskMode.NORMAL ∧
    (compute_decision snap tw w s fw fs).position_multiplier = 1 := by
  have gw : geOptQ (badFrac snap w) fw = false := by
    rcases badFrac_all_undefined snap w hall with h | h <;> rw [h]
    · rfl
    · simp only [geOptQ]
      exact decide_eq_false (not_le.mpr hfw)
  have gs : geOptQ (badFrac snap s) fs = false := by
    rcases badFrac_all_undefined snap s hall with h | h <;> rw [h]
    · rfl
    · simp only [geOptQ]
      exact decide_eq_false (not_le.mpr hfs)
  rw [cd_risk_mode, cd_position_multiplier, gw, gs]
  simp

/-- Witness for C10: a one-row snapshot whose Sharpe entries are all
undefined, together with the empty snapshot, both decide NORMAL with
multiplier 1 at the default fractions. -/
theorem c10_witness :
    (∀ r ∈ [((10 : ℤ), ([none, none] : List (Option ℚ)))], ∀ x ∈ r.2, x = none) ∧
    (0 : ℚ) < 1/2 ∧ (0 : ℚ) < 3/4 ∧
    (compute_decision [((10 : ℤ), ([none, none] : List (Option ℚ)))]
      40 0 (-1/2) (1/2) (3/4)).risk_mode = RiskMode.NORMAL ∧
    (compute_decision ([] : List (ℤ × List (Option ℚ)))
      40 0 (-1/2) (1/2) (3/4)).risk_mode = RiskMode.NORMAL :=
  ⟨by decide, by norm_num, by norm_num,
   (c10_all_undefined [((10 : ℤ), ([none, none] : List (Option ℚ)))]
     40 0 (-1/2) (1/2) (3/4) (by decide) (by norm_num) (by norm_num)).1,
   (c10_all_undefined ([] : List (ℤ × List (Option ℚ)))
     40 0 (-1/2) (1/2) (3/4) (by decide) (by norm_num) (by norm_num)).1⟩

lemma sum_indicator_countP {α : Type} (p : α → Bool) (l : List α) :
    ((l.map p).map (fun b => if b then (1 : ℚ) else 0)).sum = (l.countP p : ℚ) := by
  induction l with
  | nil => simp
  | cons a t ih =>
      simp only [List.map_cons, List.sum_cons, List.countP_cons, ih]
      cases hpa : p a <;> simp [hpa, add_comm]

lemma badFrac_eq (snap : List (ℤ × List (Option ℚ))) (level : ℚ) :
    badFrac snap level =
      (if snap = [] then none
       else some ((snap.countP (fun r => ltOptQ (rowScore r.2) level) : ℚ) /
                  (snap.length : ℚ))) := by
  unfold badFrac snapScores
  cases snap with
  | nil => rfl
  | cons a t =>
      rw [if_neg (List.cons_ne_nil a t), List.map_map]
      have hcomp : ((fun r : ℤ × Option ℚ => ltOptQ r.2 level) ∘
          (fun r : ℤ × List (Option ℚ) => (r.1, rowScore r.2))) =
          fun r : ℤ × List (Option ℚ) => ltOptQ (rowScore r.2) level := rfl
      rw [hcomp]
      have hexp : (a :: t).map (fun r => ltOptQ (rowScore r.2) level) =
          ((a :: t).map (fun r => ltOptQ (rowScore r.2) level)) := rfl
      simp only [boolMean, List.map_cons]
      have hs := sum_indicator_countP (fun r : ℤ × List (Option ℚ) =>
        ltOptQ (rowScore r.2) level) (a :: t)
      simp only [List.map_cons] at hs
      rw [hs]
      simp [List.countP_cons]

/-- C1 counterexample: on a snapshot with one all-undefined row and one row
whose score is below the warn level, `compute_decision` reports a warn
fraction of 1/2 (the undefined row counts in the denominator), while the
claimed policy — undefined rows excluded from numerator and denominator —
gives 1. -/
theorem c1_cex :
    (compute_decision [((10 : ℤ), ([none] : List (Option ℚ))), (20, [some (-1)])]
      10 0 (-1/2) (1/2) (3/4)).bad_warn_frac = some (1/2) ∧
    fracBelowSpec 0 ([((10 : ℤ), ([none] : List (Option ℚ))), (20, [some (-1)])].map
      (fun r => rowScore r.2)) = some 1 ∧
    some ((1 : ℚ)/2) ≠ some (1 : ℚ) := by
  refine ⟨?_, ?_, by norm_num⟩
  · norm_num [compute_decision, badFrac, snapScores, rowScore, medianQ, sortQ,
      insertQ, ltOptQ, boolMean, geOptQ]
  · norm_num [fracBelowSpec, rowScore, medianQ, sortQ, insertQ,
      List.filterMap_cons, List.countP_cons]

/-- C1 amended: `bad_warn_frac` is the fraction of rows whose median score
is defined and below the warn level, taken over all rows of the snapshot —
rows with an undefined score are excluded from the numerator but counted in
the denominator — and undefined (NaN) for an empty snapshot; `bad_stop_frac`
is the analogous fraction with the stop level. -/
theorem c1_amended (snap : List (ℤ × List (Option ℚ))) (tw : ℤ)
    (w s fw fs : ℚ) :
    (compute_decision snap tw w s fw fs).bad_warn_frac =
      (if snap = [] then none
       else some ((snap.countP (fun r => ltOptQ (rowScore r.2) w) : ℚ) /
                  (snap.length : ℚ))) ∧
    (compute_decision snap tw w s fw fs).bad_stop_frac =
      (if snap = [] then none
       else some ((snap.countP (fun r => ltOptQ (rowScore r.2) s) : ℚ) /
                  (snap.length : ℚ))) := by
  rw [cd_bad_warn_frac, cd_bad_stop_frac, badFrac_eq, badFrac_eq]
  exact ⟨rfl, rfl⟩

lemma length_pct_change_fill (p : List ℚ) : (pct_change_fill p).length = p.length := by
  cases p with
  | nil => rfl
  | cons a t => simp [pct_change_fill, List.length_zipWith]

lemma length_shift_fill (l : List ℚ) : (shift_fill l).length = l.length := by
  cases l with
  | nil => rfl
  | cons a t => simp [shift_fill]

lemma length_turnover_fill (l : List ℚ) : (turnover_fill l).length = l.length := by
  cases l with
  | nil => rfl
  | cons a t => simp [turnover_fill, List.length_zipWith]

lemma length_reindex_fill (price position : List ℚ) :
    (reindex_fill price position).length = price.length := by
  simp [reindex_fill]

lemma length_backtest_returns (price position : List ℚ) (c : ℚ) :
    (backtest_returns price position c).length = price.length := by
  simp [backtest_returns, List.length_zipWith, length_pct_change_fill,
    length_shift_fill, length_turnover_fill, length_reindex_fill]

lemma pct_change_fill_get (p : List ℚ) (i : ℕ) (hi : i < p.length) :
    (pct_change_fill p)[i]? =
      some (if i = 0 then 0 else p.getD i 0 / p.getD (i - 1) 0 - 1) := by
  cases p with
  | nil => simp at hi
  | cons a t =>
      cases i with
      | zero => simp [pct_change_fill]
      | succ j =>
          simp only [pct_change_fill, List.getElem?_cons_succ, List.getElem?_zipWith]
          have hj : j < t.length := by simpa using Nat.lt_of_succ_lt_succ hi
          have h1 : (a :: t)[j]? = some ((a :: t).getD j 0) := by
            rw [List.getD_eq_getElem?_getD, List.getElem?_eq_getElem (by simpa using Nat.lt_succ_of_lt hj)]
            rfl
          have h2 : (List.tail (a :: t))[j]? = some (t.getD j 0) := by
            simp only [List.tail_cons]
            rw [List.getD_eq_getElem?_getD, List.getElem?_eq_getElem hj]
            rfl
          rw [h1, h2]
          simp [List.getD_cons_succ]

lemma shift_fill_get (l : List ℚ) (i : ℕ) (hi : i < l.length) :
    (shift_fill l)[i]? = some (if i = 0 then 0 else l.getD (i - 1) 0) := by
  cases l with
  | nil => simp at hi
  | cons a t =>
      cases i with
      | zero => simp [shift_fill]
      | succ j =>
          simp only [shift_fill, List.getElem?_cons_succ, List.getElem?_dropLast]
          have hj : j < (a :: t).length - 1 := by simpa using Nat.lt_of_succ_lt_succ hi
          have hjl : j < (a :: t).length := lt_of_lt_of_le hj (Nat.sub_le _ _)
          rw [if_pos hj, List.getElem?_eq_getElem hjl]
          simp [List.getD_eq_getElem?_getD, List.getElem?_eq_getElem hjl]

lemma turnover_fill_get (l : List ℚ) (i : ℕ) (hi : i < l.length) :
    (turnover_fill l)[i]? =
      some (if i = 0 then 0 else |l.getD i 0 - l.getD (i - 1) 0|) := by
  cases l with
  | nil => simp at hi
  | cons a t =>
      cases i with
      | zero => simp [turnover_fill]
      | succ j =>
          simp only [turnover_fill, List.getElem?_cons_succ, List.getElem?_zipWith]
          have hj : j < t.length := by simpa using Nat.lt_of_succ_lt_succ hi
          have h1 : (a :: t)[j]? = some ((a :: t).getD j 0) := by
            rw [List.getD_eq_getElem?_getD, List.getElem?_eq_getElem (by simpa using Nat.lt_succ_of_lt hj)]
            rfl
          have h2 : (List.tail (a :: t))[j]? = some (t.getD j 0) := by
            simp only [List.tail_cons]
            rw [List.getD_eq_getElem?_getD, List.getElem?_eq_getElem hj]
            rfl
          rw [h1, h2]
          simp [List.getD_cons_succ]

lemma reindex_fill_get (price position : List ℚ) (i : ℕ) (hi : i < price.length) :
    (reindex_fill price position)[i]? = some (position.getD i 0) := by
  simp [reindex_fill, List.getElem?_map, List.getElem?_range hi]

lemma reindex_fill_getD (price position : List ℚ) (i : ℕ) (hi : i < price.length) :
    (reindex_fill price position).getD i 0 = position.getD i 0 := by
  rw [List.getD_eq_getElem?_getD, reindex_fill_get price position i hi]
  rfl

lemma backtest_returns_get (price position : List ℚ) (c : ℚ) (i : ℕ)
    (hi : i < price.length) :
    (backtest_returns price position c)[i]? =
      some ((if i = 0 then 0
             else (reindex_fill price position).getD (i - 1) 0 *
                  (price.getD i 0 / price.getD (i - 1) 0 - 1)) -
            c / 10000 *
            (if i = 0 then 0
             else |(reindex_fill price position).getD i 0 -
                   (reindex_fill price position).getD (i - 1) 0|)) := by
  have hip : i < (reindex_fill price position).length := by
    rw [length_reindex_fill]; exact hi
  simp only [backtest_returns, List.getElem?_zipWith, List.getElem?_map,
    shift_fill_get (reindex_fill price position) i hip,
    pct_change_fill_get price i hi,
    turnover_fill_get (reindex_fill price position) i hip]
  cases i with
  | zero => norm_num
  | succ j => simp

/-- C3: the backtest net return at each timestamp `t` equals
`pos_{t-1} * (price_t / price_{t-1} - 1) - (cost_bps/10000) * |pos_t - pos_{t-1}|`
where `pos` is the position series reindexed onto the price index with gaps
filled by 0, and the period return, the lagged position and the turnover
all vanish at the first timestamp, so the first net return is 0. -/
theorem c3_backtest (price position : List ℚ) (cost_bps : ℚ)
    (_hc : 0 ≤ cost_bps) :
    (backtest_returns price position cost_bps).length = price.length ∧
    (0 < price.length → (backtest_returns price position cost_bps)[0]? = some 0) ∧
    (∀ t, 0 < t → t < price.length →
      (backtest_returns price position cost_bps)[t]? =
        some ((reindex_fill price position).getD (t - 1) 0 *
                (price.getD t 0 / price.getD (t - 1) 0 - 1) -
              cost_bps / 10000 *
                |(reindex_fill price position).getD t 0 -
                 (reindex_fill price position).getD (t - 1) 0|)) := by
  refine ⟨length_backtest_returns price position cost_bps, fun h0 => ?_, fun t ht hlt => ?_⟩
  · rw [backtest_returns_get price position cost_bps 0 h0]
    norm_num
  · rw [backtest_returns_get price position cost_bps t hlt,
      if_neg (Nat.pos_iff_ne_zero.mp ht), if_neg (Nat.pos_iff_ne_zero.mp ht)]

/-- Witness for C3 at price `[100, 110]`, position `[0, 1]`, cost 1 bps:
the first return is 0 and the second is the formula's value, a pure cost
of one basis point on the unit of turnover. -/
theorem c3_witness :
    (0 : ℚ) ≤ 1 ∧
    (backtest_returns [100, 110] [0, 1] 1)[0]? = some (0 : ℚ) ∧
    (backtest_returns [100, 110] [0, 1] 1)[1]? = some (-(1 / 10000) : ℚ) := by
  refine ⟨by norm_num, (c3_backtest [100, 110] [0, 1] 1 (by norm_num)).2.1 (by norm_num), ?_⟩
  have h := (c3_backtest [100, 110] [0, 1] 1 (by norm_num)).2.2 1 (by norm_num) (by norm_num)
  norm_num [reindex_fill, List.range_succ] at h
  exact h

lemma length_posScan (zentry zexit c : ℚ) (zs : List FQ) :
    (posScan zentry zexit c zs).length = zs.length := by
  induction zs generalizing c with
  | nil => rfl
  | cons z rest ih => simp [posScan, ih]

lemma length_zscore_position (sq : ℚ → ℚ) (price : List ℚ) (window : ℕ)
    (zentry zexit : ℚ) :
    (zscore_position sq price window zentry zexit).length = price.length := by
  rw [zscore_position, length_posScan, zListFQ, List.length_map, List.length_range]

/-- C6 counterexample: called with `z_exit = 1 ≥ z_entry = 1/2` (an invalid
configuration per the spec) the Position Generator performs no validation
and raises nothing — it returns the position series `[0, -1, -1]`, even
entering a short under the inverted thresholds.  The only rolling variances
reached on this input are exactly 1/4, whose square root 1/2 is an exact
rational (and an exact binary float), so instantiating the abstract square
root at `ratSqrt` reproduces the source's arithmetic exactly: the z values
are NaN, 1, 1, and `|1| < z_exit = 1` fails, so the state enters short at
the second timestamp and holds. -/
theorem c6_cex :
    ((1 : ℚ)/2 ≤ 1) ∧
    ratSqrt (1/4) = 1/2 ∧
    varQ (trailing [1, 2, 3] 2 1) = 1/4 ∧
    varQ (trailing [1, 2, 3] 2 2) = 1/4 ∧
    zscore_position ratSqrt [1, 2, 3] 2 (1/2) 1 = [0, -1, -1] := by
  refine ⟨by norm_num, by norm_num [ratSqrt], ?_, ?_, ?_⟩
  · norm_num [trailing, varQ, meanQ]
  · norm_num [trailing, varQ, meanQ]
  · norm_num [zscore_position, zListFQ, zscoreFQ, posScan, posStep, trailing, meanQ,
      varQ, ratSqrt, FQ.div, FQ.isNan, FQ.fabs, FQ.lt, List.range_succ]

/-- C6 amended: no configuration validation is performed; `zscore_position`
accepts `z_exit ≥ z_entry` and still returns a position series aligned
one-to-one with the price series instead of raising an error (window
bounds are likewise not checked by this code but delegated to the pandas
library). -/
theorem c6_amended (sq : ℚ → ℚ) (price : List ℚ) (window : ℕ)
    (zentry zexit : ℚ) (_h : zentry ≤ zexit) :
    (zscore_position sq price window zentry zexit).length = price.length :=
  length_zscore_position sq price window zentry zexit

/-- Witness for C6 amended: the invalid configuration `z_entry = 1/2 ≤
z_exit = 1` still yields a three-entry series on a three-point price
series. -/
theorem c6_witness :
    ((1 : ℚ)/2 ≤ 1) ∧
    (zscore_position ratSqrt [1, 2, 3] 2 (1/2) 1).length = 3 :=
  ⟨by norm_num, c6_amended ratSqrt [1, 2, 3] 2 (1/2) 1 (by norm_num)⟩

lemma rolling_sharpe_get (sq : ℚ → ℚ) (r : List ℚ) (window ann i : ℕ)
    (hi : i < r.length) :
    (rolling_sharpe sq r window ann)[i]? =
      some (FQ.clearInf (srRaw sq r window ann i)) := by
  simp [rolling_sharpe, List.getElem?_map, List.getElem?_range hi]

lemma clearInf_scale_div_zero (c m : ℚ) :
    FQ.clearInf (FQ.scale c (FQ.div (FQ.fin m) (FQ.fin 0))) = FQ.nan := by
  simp only [FQ.div, if_pos rfl]
  split_ifs <;> simp only [FQ.scale, FQ.clearInf] <;> split_ifs <;> rfl

lemma clearInf_ne_inf (x : FQ) :
    FQ.clearInf x ≠ FQ.posinf ∧ FQ.clearInf x ≠ FQ.neginf := by
  cases x <;> simp [FQ.clearInf]

/-- C4: `rolling_sharpe` is undefined (NaN) on the first `window - 1`
timestamps and wherever the trailing-window population std is zero, never
contains an infinity (infinite ratios are replaced by NaN), and elsewhere
equals `sqrt(annualization) * mean / std` over the trailing window. -/
theorem c4_rolling_sharpe (sq : ℚ → ℚ) (r : List ℚ) (window ann : ℕ)
    (_hw : 1 ≤ window) :
    (rolling_sharpe sq r window ann).length = r.length ∧
    (∀ i < r.length, i + 1 < window →
      (rolling_sharpe sq r window ann)[i]? = some FQ.nan) ∧
    (∀ i < r.length, sq (varQ (trailing r window i)) = 0 →
      (rolling_sharpe sq r window ann)[i]? = some FQ.nan) ∧
    (∀ i : ℕ, (rolling_sharpe sq r window ann)[i]? ≠ some FQ.posinf ∧
          (rolling_sharpe sq r window ann)[i]? ≠ some FQ.neginf) ∧
    (∀ i < r.length, ¬ i + 1 < window → sq (varQ (trailing r window i)) ≠ 0 →
      (rolling_sharpe sq r window ann)[i]? =
        some (FQ.fin (sq (ann : ℚ) *
          (meanQ (trailing r window i) / sq (varQ (trailing r window i)))))) := by
  refine ⟨by simp [rolling_sharpe], fun i hi hiw => ?_, fun i hi hv => ?_,
    fun i => ?_, fun i hi hiw hv => ?_⟩
  · rw [rolling_sharpe_get sq r window ann i hi, srRaw, if_pos hiw]
    rfl
  · rw [rolling_sharpe_get sq r window ann i hi, srRaw]
    split_ifs with h
    · rfl
    · rw [hv, clearInf_scale_div_zero]
  · by_cases hi : i < r.length
    · rw [rolling_sharpe_get sq r window ann i hi]
      have h := clearInf_ne_inf (srRaw sq r window ann i)
      exact ⟨by simpa using h.1, by simpa using h.2⟩
    · rw [List.getElem?_eq_none (by simpa [rolling_sharpe] using Nat.le_of_not_lt hi)]
      simp
  · rw [rolling_sharpe_get sq r window ann i hi, srRaw, if_neg hiw]
    simp only [FQ.div, if_neg hv, FQ.scale, FQ.clearInf]

/-- Witness for C4 on returns `[1, 2, 3]` with window 2: NaN before the
window fills, and the formula value afterwards. -/
theorem c4_witness :
    (1 ≤ 2) ∧
    (rolling_sharpe id [1, 2, 3] 2 252)[0]? = some FQ.nan ∧
    (rolling_sharpe id [1, 2, 3] 2 252)[1]? =
      some (FQ.fin ((252 : ℚ) *
        (meanQ (trailing [1, 2, 3] 2 1) / varQ (trailing [1, 2, 3] 2 1)))) := by
  refine ⟨by norm_num,
    (c4_rolling_sharpe id [1, 2, 3] 2 252 (by norm_num)).2.1 0 (by norm_num) (by norm_num), ?_⟩
  have h := (c4_rolling_sharpe id [1, 2, 3] 2 252 (by norm_num)).2.2.2.2 1 (by norm_num)
    (by norm_num)
    (by norm_num [trailing, varQ, meanQ, List.take, List.drop])
  simpa using h

lemma list_sum_zero_of_nonneg {l : List ℚ} (h0 : ∀ x ∈ l, 0 ≤ x)
    (hs : l.sum = 0) : ∀ x ∈ l, x = 0 := by
  induction l with
  | nil => intro x hx; simp at hx
  | cons a tl ih =>
      have hta : 0 ≤ a := h0 a (List.mem_cons_self a tl)
      have htl : 0 ≤ tl.sum := List.sum_nonneg (fun x hx => h0 x (List.mem_cons_of_mem a hx))
      have hsum : a + tl.sum = 0 := by simpa using hs
      have ha : a = 0 := le_antisymm (by linarith) hta
      have hts : tl.sum = 0 := by linarith
      intro x hx
      rcases List.mem_cons.1 hx with rfl | hx'
      · exact ha
      · exact ih (fun y hy => h0 y (List.mem_cons_of_mem a hy)) hts x hx'

lemma varQ_nonneg (l : List ℚ) : 0 ≤ varQ l := by
  unfold varQ
  apply div_nonneg
  · apply List.sum_nonneg
    intro x hx
    rcases List.mem_map.1 hx with ⟨y, _, rfl⟩
    exact sq_nonneg _
  · exact_mod_cast Nat.zero_le _

lemma varQ_zero_all_mean {l : List ℚ} (hne : l ≠ []) (hv : varQ l = 0) :
    ∀ x ∈ l, x = meanQ l := by
  have hlen : (l.length : ℚ) ≠ 0 := by
    have hne' : l.length ≠ 0 := fun h => hne (List.eq_nil_of_length_eq_zero h)
    exact_mod_cast hne'
  have hsum : ((l.map (fun x => (x - meanQ l) ^ 2)).sum) = 0 := by
    rcases div_eq_zero_iff.1 hv with h | h
    · exact h
    · exact absurd h hlen
  intro x hx
  have hx2 : (x - meanQ l) ^ 2 = 0 := by
    refine list_sum_zero_of_nonneg ?_ hsum _ (List.mem_map.2 ⟨x, hx, rfl⟩)
    intro y hy
    rcases List.mem_map.1 hy with ⟨z, _, rfl⟩
    exact sq_nonneg _
  have := pow_eq_zero_iff (n := 2) (by norm_num) |>.1 hx2
  linarith [this]

lemma trailing_length {l : List ℚ} {window i : ℕ} (hw : window ≤ i + 1)
    (hi : i < l.length) : (trailing l window i).length = window := by
  unfold trailing
  rw [List.length_drop, List.length_take]
  omega

lemma trailing_getD_mem {l : List ℚ} {window i : ℕ} (hw : window ≤ i + 1)
    (hwpos : 0 < window) (hi : i < l.length) :
    l.getD i 0 ∈ trailing l window i := by
  have hlen : (trailing l window i).length = window := trailing_length hw hi
  have hidx : window - 1 < (trailing l window i).length := by omega
  have hval : (trailing l window i)[window - 1] = l.getD i 0 := by
    unfold trailing
    rw [List.getElem_drop, List.getElem_take]
    have h2 : i + 1 - window + (window - 1) = i := by omega
    rw [List.getD_eq_getElem?_getD, List.getElem?_eq_getElem hi]
    simp [h2]
  rw [← hval]
  exact List.getElem_mem hidx

/-- Injection of the spec's optional z values into float-like values. -/
def embedFQ : Option ℚ → FQ
  | none => FQ.nan
  | some v => FQ.fin v

lemma zscoreFQ_eq_embed_specZ (sq : ℚ → ℚ)
    (hsq : ∀ x : ℚ, 0 ≤ x → (sq x = 0 ↔ x = 0))
    (price : List ℚ) (window i : ℕ) (hw : 0 < window) (hi : i < price.length) :
    zscoreFQ sq price window i = embedFQ (specZ sq price window i) := by
  unfold zscoreFQ specZ
  by_cases hins : i + 1 < window
  · simp [hins, embedFQ]
  · rw [if_neg hins]
    by_cases hv : varQ (trailing price window i) = 0
    · rw [if_pos (Or.inr hv)]
      have hne : trailing price window i ≠ [] := by
        intro hnil
        have := trailing_length (Nat.le_of_not_lt hins) hi
        rw [hnil] at this
        simp at this
        omega
      have hmem := trailing_getD_mem (Nat.le_of_not_lt hins) hw hi
      have hd : price.getD i 0 - meanQ (trailing price window i) = 0 := by
        have := varQ_zero_all_mean hne hv _ hmem
        linarith
      have hs0 : sq (varQ (trailing price window i)) = 0 :=
        (hsq _ (varQ_nonneg _)).2 hv
      rw [hd, hs0]
      simp [FQ.div, embedFQ]
    · rw [if_neg (by push_neg; exact ⟨Nat.le_of_not_lt hins, hv⟩ :
        ¬(i + 1 < window ∨ varQ (trailing price window i) = 0))]
      have hs0 : sq (varQ (trailing price window i)) ≠ 0 := by
        intro h
        exact hv ((hsq _ (varQ_nonneg _)).1 h)
      simp [FQ.div, hs0, embedFQ]

lemma posStep_embed (zentry zexit c : ℚ) (z : Option ℚ) :
    posStep zentry zexit c (embedFQ z) = specStep zentry zexit c z := by
  cases z with
  | none => rfl
  | some v =>
      simp only [embedFQ, posStep, specStep, FQ.isNan, FQ.fabs, FQ.lt,
        Bool.false_eq_true, if_false, decide_eq_true_eq]
      by_cases h1 : |v| < zexit <;> by_cases hc : c = 0 <;>
        by_cases h2 : zentry < v <;> by_cases h3 : v < -zentry <;>
        simp [h1, hc, h2, h3]

/-- The spec's left-fold, written as a scan over the optional z values. -/
def optScan (zentry zexit : ℚ) : ℚ → List (Option ℚ) → List ℚ
  | _, [] => []
  | cur, z :: rest =>
      let c := specStep zentry zexit cur z
      c :: optScan zentry zexit c rest

lemma posScan_map_embed (zentry zexit : ℚ) (c : ℚ) (zs : List (Option ℚ)) :
    posScan zentry zexit c (zs.map embedFQ) = optScan zentry zexit c zs := by
  induction zs generalizing c with
  | nil => rfl
  | cons z rest ih =>
      simp only [List.map_cons, posScan, optScan, posStep_embed]
      rw [ih]

lemma specPositions_foldl (zentry zexit : ℚ) (zs : List (Option ℚ))
    (l0 : List ℚ) (c0 : ℚ) :
    (zs.foldl (fun (acc : List ℚ × ℚ) z =>
        let c := specStep zentry zexit acc.2 z
        (acc.1 ++ [c], c)) (l0, c0)).1 = l0 ++ optScan zentry zexit c0 zs := by
  induction zs generalizing l0 c0 with
  | nil => simp [optScan]
  | cons z rest ih =>
      simp only [List.foldl_cons, optScan]
      rw [ih]
      simp

lemma specPositions_eq_optScan (sq : ℚ → ℚ) (price : List ℚ) (window : ℕ)
    (zentry zexit : ℚ) :
    specPositions sq price window zentry zexit =
      optScan zentry zexit 0 ((List.range price.length).map (specZ sq price window)) := by
  unfold specPositions
  rw [← List.foldl_map (specZ sq price window)
    (fun (acc : List ℚ × ℚ) z =>
      let c := specStep zentry zexit acc.2 z
      (acc.1 ++ [c], c))]
  rw [specPositions_foldl]
  simp

lemma zListFQ_eq_map_embed (sq : ℚ → ℚ)
    (hsq : ∀ x : ℚ, 0 ≤ x → (sq x = 0 ↔ x = 0))
    (price : List ℚ) (window : ℕ) (hw : 0 < window) :
    zListFQ sq price window =
      ((List.range price.length).map (specZ sq price window)).map embedFQ := by
  unfold zListFQ
  rw [List.map_map]
  apply List.map_congr_left
  intro i hi
  exact zscoreFQ_eq_embed_specZ sq hsq price window i hw (List.mem_range.1 hi)

lemma posScan_adjacent (zentry zexit : ℚ) (zs : List FQ) :
    ∀ (c : ℚ) (i : ℕ) (a b : ℚ),
      (posScan zentry zexit c zs)[i]? = some a →
      (posScan zentry zexit c zs)[i + 1]? = some b →
      ∃ z, b = posStep zentry zexit a z := by
  induction zs with
  | nil => intro c i a b ha _; simp [posScan] at ha
  | cons z rest ih =>
      intro c i a b ha hb
      cases i with
      | zero =>
          simp only [posScan, List.getElem?_cons_zero, List.getElem?_cons_succ] at ha hb
          cases rest with
          | nil => simp [posScan] at hb
          | cons z2 r2 =>
              simp only [posScan, List.getElem?_cons_zero] at hb
              refine ⟨z2, ?_⟩
              have haa : posStep zentry zexit c z = a := by
                simpa using ha
              have hbb : posStep zentry zexit (posStep zentry zexit c z) z2 = b := by
                simpa using hb
              rw [← haa, hbb]
      | succ j =>
          simp only [posScan, List.getElem?_cons_succ] at ha hb
          exact ih (posStep zentry zexit c z) j a b ha hb

lemma posStep_of_one (zentry zexit : ℚ) (z : FQ) :
    posStep zentry zexit 1 z = 0 ∨ posStep zentry zexit 1 z = 1 := by
  unfold posStep
  split_ifs <;> simp_all

lemma posStep_of_negone (zentry zexit : ℚ) (z : FQ) :
    posStep zentry zexit (-1) z = 0 ∨ posStep zentry zexit (-1) z = -1 := by
  unfold posStep
  split_ifs <;> simp_all

/-- C2: on valid configurations (positive window, `0 ≤ z_exit < z_entry`)
the Position Generator output is exactly the spec's left-fold of the state
machine over the timestamps — reset on undefined z or inside the exit band,
enter from flat beyond the entry thresholds, hold otherwise — and the
emitted position never flips directly between +1 and -1 at consecutive
timestamps. -/
theorem c2_positions_fold (sq : ℚ → ℚ)
    (hsq : ∀ x : ℚ, 0 ≤ x → (sq x = 0 ↔ x = 0))
    (price : List ℚ) (window : ℕ) (zentry zexit : ℚ)
    (hw : 0 < window) (_h0 : 0 ≤ zexit) (_h1 : zexit < zentry) :
    zscore_position sq price window zentry zexit =
      specPositions sq price window zentry zexit ∧
    (∀ i : ℕ,
      ¬((zscore_position sq price window zentry zexit)[i]? = some 1 ∧
        (zscore_position sq price window zentry zexit)[i + 1]? = some (-1)) ∧
      ¬((zscore_position sq price window zentry zexit)[i]? = some (-1) ∧
        (zscore_position sq price window zentry zexit)[i + 1]? = some 1)) := by
  constructor
  · rw [zscore_position, zListFQ_eq_map_embed sq hsq price window hw,
      posScan_map_embed, specPositions_eq_optScan]
  · intro i
    constructor
    · rintro ⟨h1, h2⟩
      rw [zscore_position] at h1 h2
      obtain ⟨z, hz⟩ := posScan_adjacent zentry zexit
        (zListFQ sq price window) 0 i 1 (-1) h1 h2
      rcases posStep_of_one zentry zexit z with h | h <;> rw [h] at hz <;> norm_num at hz
    · rintro ⟨h1, h2⟩
      rw [zscore_position] at h1 h2
      obtain ⟨z, hz⟩ := posScan_adjacent zentry zexit
        (zListFQ sq price window) 0 i (-1) 1 h1 h2
      rcases posStep_of_negone zentry zexit z with h | h <;> rw [h] at hz <;> norm_num at hz

/-- Witness for C2: the fold equality at a concrete valid configuration
(constant prices, window 1, thresholds 2 and 1/2, real square root replaced
by the identity, which satisfies the required zero law). -/
theorem c2_witness :
    (0 < (1 : ℕ) ∧ (0 : ℚ) ≤ 1/2 ∧ (1 : ℚ)/2 < 2) ∧
    zscore_position id [1, 1, 1] 1 2 (1/2) = specPositions id [1, 1, 1] 1 2 (1/2) :=
  ⟨⟨by norm_num, by norm_num, by norm_num⟩,
   (c2_positions_fold id (fun _ _ => Iff.rfl) [1, 1, 1] 1 2 (1/2)
     (by norm_num) (by norm_num) (by norm_num)).1⟩

lemma take_eq_of_agree {α : Type} (p q : List α) (t : ℕ)
    (h : ∀ j < t, p[j]? = q[j]?) : p.take t = q.take t := by
  apply List.ext_getElem?
  intro j
  rw [List.getElem?_take, List.getElem?_take]
  split_ifs with hj
  · exact h j hj
  · rfl

lemma get_of_take_eq {α : Type} {p q : List α} {t i : ℕ}
    (h : p.take t = q.take t) (hi : i < t) : p[i]? = q[i]? := by
  have hc := congrArg (fun l => l[i]?) h
  simpa [List.getElem?_take, hi] using hc

lemma zscoreFQ_congr (sq : ℚ → ℚ) (p q : List ℚ) (window t i : ℕ)
    (htake : p.take t = q.take t) (hi : i < t) :
    zscoreFQ sq p window i = zscoreFQ sq q window i := by
  have htr : trailing p window i = trailing q window i := by
    unfold trailing
    have hp : (p.take t).take (i + 1) = p.take (i + 1) := by
      rw [List.take_take, min_eq_left (by omega)]
    have hq : (q.take t).take (i + 1) = q.take (i + 1) := by
      rw [List.take_take, min_eq_left (by omega)]
    rw [← hp, htake, hq]
  have hgd : p.getD i 0 = q.getD i 0 := by
    rw [List.getD_eq_getElem?_getD, List.getD_eq_getElem?_getD,
      get_of_take_eq htake hi]
  unfold zscoreFQ
  rw [htr, hgd]

lemma zListFQ_take_congr (sq : ℚ → ℚ) (p q : List ℚ) (window t : ℕ)
    (hlen : p.length = q.length) (htake : p.take t = q.take t) :
    (zListFQ sq p window).take t = (zListFQ sq q window).take t := by
  apply take_eq_of_agree
  intro j hj
  unfold zListFQ
  rw [List.getElem?_map, List.getElem?_map]
  by_cases hjp : j < p.length
  · rw [List.getElem?_range hjp, List.getElem?_range (hlen ▸ hjp)]
    simp [zscoreFQ_congr sq p q window t j htake hj]
  · rw [List.getElem?_eq_none (by simpa using Nat.le_of_not_lt hjp),
      List.getElem?_eq_none (by simp; omega)]
    rfl

lemma posScan_take_congr (zentry zexit : ℚ) :
    ∀ (t : ℕ) (zs zs' : List FQ) (c : ℚ), zs.take t = zs'.take t →
      (posScan zentry zexit c zs).take t = (posScan zentry zexit c zs').take t := by
  intro t
  induction t with
  | zero => intro zs zs' c _; simp
  | succ u ih =>
      intro zs zs' c h
      cases zs with
      | nil =>
          have : zs' = [] := by
            have h' := h.symm
            simp only [List.take_nil] at h'
            rcases List.take_eq_nil_iff.1 h' with h0 | h0
            · omega
            · exact h0
          rw [this]
      | cons a as =>
          cases zs' with
          | nil =>
              simp only [List.take_nil] at h
              rcases List.take_eq_nil_iff.1 h with h0 | h0
              · omega
              · simp at h0
          | cons b bs =>
              simp only [List.take_succ_cons, List.cons.injEq] at h
              obtain ⟨rfl, htail⟩ := h
              simp only [posScan, List.take_succ_cons, List.cons.injEq]
              exact ⟨by trivial, ih as bs (posStep zentry zexit c a) htail⟩

lemma zscore_position_take_congr (sq : ℚ → ℚ) (p q : List ℚ) (window : ℕ)
    (zentry zexit : ℚ) (t : ℕ) (hlen : p.length = q.length)
    (htake : p.take t = q.take t) :
    (zscore_position sq p window zentry zexit).take t =
      (zscore_position sq q window zentry zexit).take t := by
  rw [zscore_position, zscore_position]
  exact posScan_take_congr zentry zexit t _ _ 0
    (zListFQ_take_congr sq p q window t hlen htake)

/-- C7: no lookahead — if two price series of equal length agree at every
timestamp strictly before `t`, then the generated position series and the
backtest return series computed from them agree at every timestamp strictly
before `t`; a price change at `t` can never alter an earlier position or
return. -/
theorem c7_no_lookahead (sq : ℚ → ℚ) (p q : List ℚ) (window : ℕ)
    (zentry zexit cost : ℚ) (t : ℕ) (hlen : p.length = q.length)
    (hagree : ∀ i < t, p[i]? = q[i]?) :
    (∀ i < t, (zscore_position sq p window zentry zexit)[i]? =
              (zscore_position sq q window zentry zexit)[i]?) ∧
    (∀ i < t,
      (backtest_returns p (zscore_position sq p window zentry zexit) cost)[i]? =
      (backtest_returns q (zscore_position sq q window zentry zexit) cost)[i]?) := by
  have htake := take_eq_of_agree p q t hagree
  have hpos := zscore_position_take_congr sq p q window zentry zexit t hlen htake
  have hposget : ∀ i < t,
      (zscore_position sq p window zentry zexit)[i]? =
      (zscore_position sq q window zentry zexit)[i]? :=
    fun i hi => get_of_take_eq hpos hi
  refine ⟨hposget, fun i hi => ?_⟩
  by_cases hip : i < p.length
  · have hiq : i < q.length := hlen ▸ hip
    rw [backtest_returns_get p _ cost i hip, backtest_returns_get q _ cost i hiq]
    have e1 : p.getD i 0 = q.getD i 0 := by
      rw [List.getD_eq_getElem?_getD, List.getD_eq_getElem?_getD, hagree i hi]
    have e2 : p.getD (i - 1) 0 = q.getD (i - 1) 0 := by
      rw [List.getD_eq_getElem?_getD, List.getD_eq_getElem?_getD,
        hagree (i - 1) (by omega)]
    have e3 : (reindex_fill p (zscore_position sq p window zentry zexit)).getD i 0 =
        (reindex_fill q (zscore_position sq q window zentry zexit)).getD i 0 := by
      rw [reindex_fill_getD p _ i hip, reindex_fill_getD q _ i hiq,
        List.getD_eq_getElem?_getD, List.getD_eq_getElem?_getD, hposget i hi]
    have e4 : (reindex_fill p (zscore_position sq p window zentry zexit)).getD (i - 1) 0 =
        (reindex_fill q (zscore_position sq q window zentry zexit)).getD (i - 1) 0 := by
      rw [reindex_fill_getD p _ (i - 1) (by omega), reindex_fill_getD q _ (i - 1) (by omega),
        List.getD_eq_getElem?_getD, List.getD_eq_getElem?_getD, hposget (i - 1) (by omega)]
    rw [e1, e2, e3, e4]
  · have hp2 : (backtest_returns p (zscore_position sq p window zentry zexit) cost).length ≤ i := by
      rw [length_backtest_returns]
      exact Nat.le_of_not_lt hip
    have hq2 : (backtest_returns q (zscore_position sq q window zentry zexit) cost).length ≤ i := by
      rw [length_backtest_returns, ← hlen]
      exact Nat.le_of_not_lt hip
    rw [List.getElem?_eq_none hp2, List.getElem?_eq_none hq2]

/-- Witness for C7: the prices `[1, 2, 3]` and `[1, 2, 100]` agree before
timestamp 2, so the positions and returns agree at timestamps 0 and 1 even
though the price at timestamp 2 differs. -/
theorem c7_witness :
    [1, 2, 3].length = [1, 2, 100].length ∧
    (∀ i < 2, ([1, 2, 3] : List ℚ)[i]? = ([1, 2, 100] : List ℚ)[i]?) ∧
    (zscore_position id [1, 2, 3] 2 2 (1/2))[1]? =
      (zscore_position id [1, 2, 100] 2 2 (1/2))[1]? ∧
    (backtest_returns [1, 2, 3] (zscore_position id [1, 2, 3] 2 2 (1/2)) 1)[1]? =
      (backtest_returns [1, 2, 100] (zscore_position id [1, 2, 100] 2 2 (1/2)) 1)[1]? := by
  have hag : ∀ i < 2, ([1, 2, 3] : List ℚ)[i]? = ([1, 2, 100] : List ℚ)[i]? := by
    intro i hi
    interval_cases i <;> rfl
  have h := c7_no_lookahead id [1, 2, 3] [1, 2, 100] 2 2 (1/2) 1 2 (by rfl) hag
  exact ⟨by rfl, hag, h.1 1 (by norm_num), h.2 1 (by norm_num)⟩
